import Mathlib

/-!
Verification of the magnet2torrent engine against its specification.

Shallow embedding of the Python sources:
  src/magnet2torrent/magnet2torrent.py  (magnet parsing, orchestrator)
  src/magnet2torrent/peer.py            (peer wire and metadata exchange)
  src/magnet2torrent/udptracker.py      (BEP 15 UDP tracker client)
  src/magnet2torrent/dht/protocol.py    (KRPC protocol)
  src/magnet2torrent/dht/crawling.py    (iterative lookup spider)
  src/magnet2torrent/dht/network.py     (DHT server, find_peers stream)
  src/magnet2torrent/dht/storage.py     (token and peer storage)

Machine bytes are modelled as natural numbers below 256, byte strings as
lists of naturals, asyncio futures as Option values, and the event loop as
explicit event sequences folded over transition functions.
-/

namespace M2T

abbrev Bytes := List Nat

abbrev PeerAddr := Nat × Nat

/-! ## Magnet URI parsing (magnet2torrent.py, Magnet2Torrent._parse_url)

The source decodes the xt hash with binascii.unhexlify for 40 characters
and base64.b32decode for 32 characters, raising for any other length.
Both stdlib codecs are embedded below following CPython semantics.
-/

/-- Value of one hex digit as accepted by binascii.unhexlify
(digits 0-9, a-f, A-F). -/
def hexDigitVal (c : Char) : Option Nat :=
  if '0' ≤ c ∧ c ≤ '9' then some (c.toNat - '0'.toNat)
  else if 'a' ≤ c ∧ c ≤ 'f' then some (c.toNat - 'a'.toNat + 10)
  else if 'A' ≤ c ∧ c ≤ 'F' then some (c.toNat - 'A'.toNat + 10)
  else none

/-- binascii.unhexlify: pairs of hex digits to bytes; odd length or a
non-hex digit raises (modelled as none). -/
def unhexlify : List Char → Option Bytes
  | [] => some []
  | c1 :: c2 :: rest =>
    match hexDigitVal c1, hexDigitVal c2, unhexlify rest with
    | some h, some l, some bs => some ((16 * h + l) :: bs)
    | _, _, _ => none
  | [_] => none

/-- Value of one base32 digit (RFC 4648 alphabet, uppercase only, as
base64.b32decode with casefold=False). -/
def b32rev (c : Char) : Option Nat :=
  if 'A' ≤ c ∧ c ≤ 'Z' then some (c.toNat - 'A'.toNat)
  else if '2' ≤ c ∧ c ≤ '7' then some (c.toNat - '2'.toNat + 26)
  else none

/-- Accumulator loop of one base32 quantum: acc = (acc << 5) + b32rev[c]. -/
def quantaAccAux (acc : Nat) : List Char → Option Nat
  | [] => some acc
  | c :: cs =>
    match b32rev c with
    | some v => quantaAccAux (32 * acc + v) cs
    | none => none

/-- acc.to_bytes(5, "big") as in base64.b32decode (in the reachable
branches acc is below 2 to the 40 so no OverflowError arises). -/
def toBytes5 (n : Nat) : Bytes :=
  [n / 2 ^ 32 % 256, n / 2 ^ 24 % 256, n / 2 ^ 16 % 256, n / 2 ^ 8 % 256, n % 256]

/-- Main quanta loop of base64.b32decode over the padding-stripped input:
full 8-character quanta each produce 5 bytes, a trailing shorter quantum
also produces 5 bytes (fixed afterwards); also returns the accumulator of
the final quantum. -/
def b32go : List Char → Option (Bytes × Nat)
  | [] => some ([], 0)
  | c0 :: c1 :: c2 :: c3 :: c4 :: c5 :: c6 :: c7 :: rest =>
    match quantaAccAux 0 [c0, c1, c2, c3, c4, c5, c6, c7], b32go rest with
    | some a, some (d, la) => some (toBytes5 a ++ d, if d.isEmpty then a else la)
    | _, _ => none
  | cs =>
    match quantaAccAux 0 cs with
    | some a => some (toBytes5 a, a)
    | none => none

/-- s.rstrip(b"=") used by base64.b32decode to count padding characters. -/
def rstripEq (s : List Char) : List Char :=
  ((s.reverse).dropWhile (fun c => c = '=')).reverse

/-- base64.b32decode (CPython): length must be a multiple of 8; trailing
padding is stripped and counted; quanta are decoded; padding counts other
than 0, 1, 3, 4, 6 raise; with padding, the last 5 output bytes are
replaced by the leftover prefix of the shifted final accumulator. -/
def b32decodePy (s : List Char) : Option Bytes :=
  if s.length % 8 ≠ 0 then none
  else
    let stripped := rstripEq s
    let padchars := s.length - stripped.length
    match b32go stripped with
    | none => none
    | some (decoded, acc) =>
      if padchars = 0 ∨ padchars = 1 ∨ padchars = 3 ∨ padchars = 4 ∨ padchars = 6 then
        if padchars ≠ 0 ∧ decoded ≠ [] then
          let acc2 := acc * 2 ^ (5 * padchars)
          let leftover := (43 - 5 * padchars) / 8
          some (decoded.take (decoded.length - 5) ++ (toBytes5 acc2).take leftover)
        else some decoded
      else none

/-- Hash branch of Magnet2Torrent._parse_url: 40 characters decode as hex,
32 characters decode as base32, any other length raises. -/
def parseInfohash (s : List Char) : Option Bytes :=
  if s.length = 40 then unhexlify s
  else if s.length = 32 then b32decodePy s
  else none

/-- Lowercase hex digit of a nibble, as produced by binascii.hexlify:
code 48 plus the value for digits, code 87 plus the value for letters. -/
def hexDigitChar (n : Nat) : Char :=
  if n < 10 then Char.ofNat (48 + n) else Char.ofNat (87 + n)

/-- binascii.hexlify of one byte (lowercase). -/
def hexlifyByte (b : Nat) : List Char :=
  [hexDigitChar (b / 16 % 16), hexDigitChar (b % 16)]

/-- binascii.hexlify of a byte string (lowercase hex). -/
def hexlify (bs : Bytes) : List Char :=
  (bs.map hexlifyByte).flatten

/-- Magnet2Torrent._parse_url restricted to its computed parts: the
decoded info-hash, the tr list passed through, and the display name, which
defaults to the lowercase hex of the info-hash when dn is absent. -/
def parse_url (xtHash : List Char) (tr : List String) (dn : Option (List Char)) :
    Option (Bytes × List String × List Char) :=
  match parseInfohash xtHash with
  | none => none
  | some ih =>
    let name := match dn with
      | some n => n
      | none => hexlify ih
    some (ih, tr, name)

/-! ## Peer wire and metadata exchange (peer.py, BittorrentTCPProtocol)

The connection state after the BitTorrent handshake is modelled with the
result future cb as an Option: none while pending, some none when resolved
with None, some (some bytes) when resolved with metadata bytes.  Inbound
messages arrive already split by data_received and, for extended messages,
already bdecoded (bencode.py is a collaborator outside the peer state
machine); kill sites and connection_lost are explicit events.  SHA-1 is an
external collaborator (hashlib) and is a parameter of every transition.
-/

/-- Connection state of BittorrentTCPProtocol relevant to metadata
exchange and result resolution. -/
structure PeerConn where
  infohash : Bytes
  cb : Option (Option Bytes)
  closed : Bool
  expected_torrent_size : Option Nat
  ut_metadata : Nat
  torrent_data : List (Nat × Bytes)
  requests : List Nat
deriving DecidableEq

/-- Fresh protocol state built in BittorrentTCPProtocol.__init__ together
with fetch_from_peer's pending future. -/
def peerInit (infohash : Bytes) : PeerConn :=
  { infohash := infohash, cb := none, closed := false,
    expected_torrent_size := none, ut_metadata := 0,
    torrent_data := [], requests := [] }

/-- Python dict assignment d[k] = v: replaces in place if the key exists,
otherwise appends (insertion order preserved). -/
def dictInsert (d : List (Nat × Bytes)) (k : Nat) (v : Bytes) : List (Nat × Bytes) :=
  if (d.map Prod.fst).contains k then
    d.map (fun kv => if kv.1 = k then (k, v) else kv)
  else d ++ [(k, v)]

/-- Concatenation of self.torrent_data.values() in insertion order, as in
verify_and_set_result. -/
def dictValuesConcat (d : List (Nat × Bytes)) : Bytes :=
  (d.map Prod.snd).flatten

/-- Sum of piece lengths, sum(len(v) for v in self.torrent_data.values()). -/
def sumLens (d : List (Nat × Bytes)) : Nat :=
  (d.map (fun kv => kv.2.length)).sum

/-- BittorrentTCPProtocol.verify_and_set_result: if the future is already
done, return; otherwise hash the concatenated pieces and resolve the
future with them only when the digest equals the target info-hash. -/
def verify_and_set_result (sha1 : Bytes → Bytes) (c : PeerConn) : PeerConn :=
  if c.cb.isSome then c
  else
    let torrent_data := dictValuesConcat c.torrent_data
    if sha1 torrent_data = c.infohash then { c with cb := some (some torrent_data) }
    else c

/-- BittorrentTCPProtocol.kill: close the transport and resolve the future
with None unless it is already done. -/
def kill (c : PeerConn) : PeerConn :=
  let c := { c with closed := true }
  if c.cb.isSome then c else { c with cb := some none }

/-- BittorrentTCPProtocol.connection_lost: resolve the future with None
unless it is already done. -/
def connection_lost (c : PeerConn) : PeerConn :=
  if c.cb.isSome then c else { c with cb := some none }

/-- Decoded extended message as dispatched by handle_action for message
id 20: either the extension handshake (id 0, bdecoded config carrying m
and metadata_size) or a ut_metadata message (bdecoded header plus raw
piece payload). -/
inductive ExtMessage
  | handshakeMsg (has_ut_metadata : Bool) (utId : Nat) (metadataSize : Option Nat)
  | dataMsg (msg_type : Nat) (piece : Nat) (data : Bytes)

/-- BittorrentTCPProtocol.handle_extended_action.  The comparison of the
piece-length sum against expected_torrent_size raises a TypeError when the
peer's handshake carried no metadata_size (int < None); asyncio then
aborts the transport and connection_lost resolves the future with None,
modelled by the none branch. -/
def handle_extended_action (sha1 : Bytes → Bytes) (c : PeerConn) :
    ExtMessage → PeerConn
  | ExtMessage.handshakeMsg has_ut utId msize =>
    if ¬has_ut then kill c
    else
      { c with expected_torrent_size := msize, ut_metadata := utId,
               requests := c.requests ++ [0] }
  | ExtMessage.dataMsg mt piece data =>
    if mt = 2 then kill c
    else if mt = 1 then
      let c := { c with torrent_data := dictInsert c.torrent_data piece data }
      match c.expected_torrent_size with
      | none => connection_lost { c with closed := true }
      | some sz =>
        if sumLens c.torrent_data < sz then
          { c with requests := c.requests ++ [piece + 1] }
        else
          kill (verify_and_set_result sha1 c)
    else c

/-- Events a peer connection can observe after its outbound handshake:
extended messages, ignored non-extended actions, the oversized-frame and
handshake-validation kill sites of data_received, loss of the connection,
and the timeout and cancellation kills issued by fetch_from_peer. -/
inductive PeerEvent
  | extMsg (m : ExtMessage)
  | otherAction
  | oversized
  | badHandshake
  | connLost
  | timeoutKill
  | cancelKill

/-- One step of the peer connection, dispatching an event to the
corresponding source handler. -/
def peerStep (sha1 : Bytes → Bytes) (c : PeerConn) : PeerEvent → PeerConn
  | PeerEvent.extMsg m => handle_extended_action sha1 c m
  | PeerEvent.otherAction => c
  | PeerEvent.oversized => kill c
  | PeerEvent.badHandshake => kill c
  | PeerEvent.connLost => connection_lost c
  | PeerEvent.timeoutKill => kill c
  | PeerEvent.cancelKill => kill c

/-- A whole connection run: fold the events over the fresh state. -/
def peerRun (sha1 : Bytes → Bytes) (infohash : Bytes) (evs : List PeerEvent) : PeerConn :=
  evs.foldl (peerStep sha1) (peerInit infohash)

/-- Value returned by fetch_from_peer to the orchestrator: the bytes the
future was resolved with, or none when it was resolved with None or never
resolved. -/
def fetchFromPeerResult (sha1 : Bytes → Bytes) (infohash : Bytes)
    (evs : List PeerEvent) : Option Bytes :=
  ((peerRun sha1 infohash evs).cb).getD none

/-! ## Orchestrator (magnet2torrent.py, Magnet2Torrent.retrieve_torrent)

Peer deduplication: the loop keeps a handled_peers set for the whole call;
for every peer in a tracker result it spawns a peer task only when the
address has not been seen before.  Victory: when a peer task completes
with non-empty bytes, every not-yet-done task in the registry and in the
pending task set is cancelled before the call returns.
-/

/-- Inner for-loop of the tracker branch: walk the peers of one tracker
result, spawning a task for each address not in handled_peers and adding
it to the set. -/
def handle_tracker_peers (handled_peers spawned : List PeerAddr) :
    List PeerAddr → List PeerAddr × List PeerAddr
  | [] => (handled_peers, spawned)
  | p :: rest =>
    if p ∈ handled_peers then handle_tracker_peers handled_peers spawned rest
    else handle_tracker_peers (p :: handled_peers) (spawned ++ [p]) rest

/-- The tracker-result half of the retrieve_torrent while-loop, folded
over the sequence of tracker and DHT completions the call observes. -/
def retrieve_loop (handled_peers spawned : List PeerAddr) :
    List (List PeerAddr) → List PeerAddr × List PeerAddr
  | [] => (handled_peers, spawned)
  | r :: rs =>
    let hs := handle_tracker_peers handled_peers spawned r
    retrieve_loop hs.1 hs.2 rs

/-- All peer tasks spawned during one retrieve_torrent call that observes
the given sequence of tracker results. -/
def spawned_peer_tasks (results : List (List PeerAddr)) : List PeerAddr :=
  (retrieve_loop [] [] results).2

/-- A task as seen by the victory sweep: whether it is already done and
whether cancel was called on it. -/
structure OTask where
  done : Bool
  cancelled : Bool
deriving DecidableEq

/-- Victory sweep of retrieve_torrent: for task in chain(task_registry,
tasks): if not task.done(): task.cancel(). -/
def cancel_pending (ts : List OTask) : List OTask :=
  ts.map fun t => if t.done then t else { t with cancelled := true }

/-- Winning branch of retrieve_torrent: sweep the registry and the pending
task set, then return the torrent built from the winning bytes. -/
def winning_path (task_registry tasks : List OTask) (result : Bytes) :
    List OTask × Bytes :=
  (cancel_pending (task_registry ++ tasks), result)

/-! ## KRPC protocol (dht/protocol.py, KRPCProtocol)

Bencoded values and the reply dictionary that handle_request passes to
bencode on a successful handler result.
-/

/-- Bencode value: byte string, integer, list or dictionary with byte
string keys (bencode.py is shared infrastructure; only the dictionary
shape matters for the KRPC reply). -/
inductive BVal
  | bstr (s : Bytes)
  | bint (n : Int)
  | blist (l : List BVal)
  | bdict (d : List (Bytes × BVal))

/-- Key b"y". -/
def keyY : Bytes := [121]

/-- Key and marker b"r". -/
def keyR : Bytes := [114]

/-- Key b"t". -/
def keyT : Bytes := [116]

/-- Key b"id". -/
def keyId : Bytes := [105, 100]

/-- Dictionary passed to bencode by KRPCProtocol.handle_request when the
handler returned a non-None response; the transaction id is in scope (it
is even logged) but only y and r enter the reply. -/
def handle_request_reply (transaction_id : Bytes) (response : List (Bytes × BVal)) :
    List (Bytes × BVal) :=
  [(keyY, BVal.bstr keyR), (keyR, BVal.bdict response)]

/-- Big-endian integer value of a node id, Node.long_id. -/
def long_id (id : Bytes) : Nat :=
  id.foldl (fun a b => 256 * a + b) 0

/-- KRPCProtocol.is_valid_node_id: MIN_ID < long_id < MAX_ID. -/
def is_valid_node_id (id : Bytes) : Bool :=
  decide (0 < long_id id) && decide (long_id id < 2 ^ 160)

/-- KRPCProtocol.rpc_ping: admit valid senders and answer with our own id
echoing dictionary (routing-table admission does not change the reply). -/
def rpc_ping (id : Bytes) : Option (List (Bytes × BVal)) :=
  if is_valid_node_id id then some [(keyId, BVal.bstr id)] else none

/-- KRPCProtocol.handle_request after handler dispatch: None means no
reply datagram, otherwise the reply dictionary is bencoded and sent. -/
def handle_request_send (transaction_id : Bytes)
    (response : Option (List (Bytes × BVal))) : Option (List (Bytes × BVal)) :=
  match response with
  | none => none
  | some r => some (handle_request_reply transaction_id r)

/-! ## Iterative lookup (dht/crawling.py, SpiderCrawl._find)

The NodeHeap lives in dht/node.py, which is not part of the sources under
verification; the slice of it that _find consumes is modelled from the
spec.  Modelled from the spec: NodeHeap tracks a per-node contacted flag,
get_ids lists the ids of present nodes, get_uncontacted the nodes not yet
contacted, mark_contacted sets the flag.
-/

/-- Heap member with its contacted flag.  Modelled from the spec
(NodeHeap member state; dht/node.py is not in the sources). -/
structure HeapNode where
  nodeId : Nat
  contacted : Bool
deriving DecidableEq

/-- State read and written by SpiderCrawl._find. -/
structure SpiderState where
  alpha : Nat
  nearest : List HeapNode
  last_ids_crawled : List Nat
deriving DecidableEq

/-- Modelled from the spec: NodeHeap.get_ids. -/
def get_ids (h : List HeapNode) : List Nat :=
  h.map (fun n => n.nodeId)

/-- Modelled from the spec: NodeHeap.get_uncontacted. -/
def get_uncontacted (h : List HeapNode) : List HeapNode :=
  h.filter (fun n => ¬n.contacted)

/-- Modelled from the spec: NodeHeap.mark_contacted applied to each
dispatched node. -/
def mark_contacted (h : List HeapNode) (ids : List Nat) : List HeapNode :=
  h.map fun n => if n.nodeId ∈ ids then { n with contacted := true } else n

/-- Dispatch phase of SpiderCrawl._find: count is alpha, except when the
heap's id list equals last_ids_crawled, in which case it is the full heap
size; the first count uncontacted nodes are dispatched (their RPCs are
then awaited together, so the dispatched list is exactly the set of
in-flight RPCs of this round). -/
def find_dispatch (s : SpiderState) : List HeapNode × SpiderState :=
  let count := if get_ids s.nearest = s.last_ids_crawled then s.nearest.length
               else s.alpha
  let last_ids := get_ids s.nearest
  let dispatched := (get_uncontacted s.nearest).take count
  (dispatched,
   { s with nearest := mark_contacted s.nearest (get_ids dispatched),
            last_ids_crawled := last_ids })

/-- Concrete spider state: alpha 1, two uncontacted heap members, id list
unchanged since the previous round. -/
def stalledSpider : SpiderState :=
  { alpha := 1,
    nearest := [{ nodeId := 1, contacted := false }, { nodeId := 2, contacted := false }],
    last_ids_crawled := [1, 2] }

/-! ## DHT find_peers stream (dht/network.py, Server.find_peers)

Batches put on the result queue are triples with a continuation while the
inner loop runs and a final pair without one when it exits; the early
no-neighbors return is a single pair.
-/

/-- A value yielded to the orchestrator by the find_peers stream: the peer
list of the batch and whether a next continuation is included (the source
uses a 3-tuple with a continuation versus a terminal 2-tuple). -/
structure DhtBatch where
  peers : List PeerAddr
  hasNext : Bool
deriving DecidableEq

/-- The terminal empty batch ("dht://", zero counters, empty peers, no
continuation). -/
def terminal_batch : DhtBatch :=
  { peers := [], hasNext := false }

/-- A batch is terminal when its peer list is empty and it carries no
continuation. -/
def is_terminal (b : DhtBatch) : Bool :=
  b.peers.isEmpty && !b.hasNext

/-- What one await inside the found_peers loop can produce: an item from
the spider queue (with the value of crawl_finished the next loop check
will observe) or cancellation of the registered cancel future. -/
inductive FPEvent
  | spiderItem (peers : List PeerAddr) (crawlFinished : Bool)
  | cancelEvent

/-- The found_peers inner coroutine of Server.find_peers: while the crawl
is not finished, await the spider queue (or cancellation) and forward each
item as a batch with a continuation; on loop exit emit the terminal empty
batch.  A run whose event list ends while the loop is still awaiting is
incomplete and yields none. -/
def found_peers_loop : Bool → List FPEvent → Option (List DhtBatch)
  | true, _ => some [terminal_batch]
  | false, [] => none
  | false, FPEvent.cancelEvent :: _ => some [terminal_batch]
  | false, FPEvent.spiderItem ps fin :: rest =>
    (found_peers_loop fin rest).map
      (fun out => { peers := ps, hasNext := true } :: out)

/-- A complete find_peers invocation that found initial neighbors:
crawl_finished starts false. -/
def find_peers_run (evs : List FPEvent) : Option (List DhtBatch) :=
  found_peers_loop false evs

/-- Early return of Server.find_peers when the routing table has no
neighbors: a single already-resolved empty batch without continuation. -/
def find_peers_no_neighbors : List DhtBatch :=
  [terminal_batch]

/-! ## Token and peer storage (dht/storage.py) and announce_peer

ForgetfulTokenStorage.get_token writes a bare (sender_ip, node_id,
info_hash) triple into the OrderedDict that the inherited ForgetfulStorage
machinery expects to hold (birthday, value) pairs.  To follow the
resulting dynamic-typing behavior (mixed-type comparison in cull,
wrong-component extraction in get), stored values are modelled in a small
Python value universe.
-/

/-- Python value universe for the token-storage dict: strings (sender
IPs), byte strings (ids, info-hashes, tokens), numbers (monotonic clock
readings) and tuples. -/
inductive PV
  | pstr (s : String)
  | pbytes (b : Bytes)
  | pnum (n : Int)
  | ptup (l : List PV)

mutual

/-- Python equality on stored values. -/
def pvEq : PV → PV → Bool
  | PV.pstr a, PV.pstr b => a == b
  | PV.pbytes a, PV.pbytes b => a == b
  | PV.pnum a, PV.pnum b => a == b
  | PV.ptup a, PV.ptup b => pvListEq a b
  | _, _ => false

/-- Elementwise Python equality of tuples. -/
def pvListEq : List PV → List PV → Bool
  | [], [] => true
  | x :: xs, y :: ys => pvEq x y && pvListEq xs ys
  | _, _ => false

end

/-- Python subscription v[i]: defined for tuples with a valid index,
TypeError or IndexError otherwise. -/
def pyItem (v : PV) (i : Nat) : Except String PV :=
  match v with
  | PV.ptup l =>
    match l.get? i with
    | some x => Except.ok x
    | none => Except.error "IndexError"
  | _ => Except.error "TypeError"

/-- Python comparison min_birthday >= r[1] inside iter_older_than: defined
between numbers, a TypeError between a number and a string, bytes or
tuple. -/
def pyGe (a : Int) (v : PV) : Except String Bool :=
  match v with
  | PV.pnum n => Except.ok (decide (n ≤ a))
  | _ => Except.error "TypeError"

/-- Token-storage dict: insertion-ordered token to stored value. -/
abbrev TokenSt := List (Bytes × PV)

/-- Dict lookup by token. -/
def lookupTok (st : TokenSt) (key : Bytes) : Option PV :=
  match st.find? (fun kv => kv.1 = key) with
  | some kv => some kv.2
  | none => none

/-- Python dict assignment for the token dict. -/
def dictInsertTok (st : TokenSt) (key : Bytes) (v : PV) : TokenSt :=
  if (st.map Prod.fst).contains key then
    st.map (fun kv => if kv.1 = key then (key, v) else kv)
  else st ++ [(key, v)]

/-- ForgetfulStorage.iter_older_than restricted to the keys it returns:
walk entries in insertion order with takewhile, comparing the cutoff
against value[0] (the birthday slot, which for token entries holds the
sender IP string). -/
def iter_older_keys (min_birthday : Int) : TokenSt → Except String (List Bytes)
  | [] => Except.ok []
  | (k, v) :: rest => do
    let r1 ← pyItem v 0
    let ge ← pyGe min_birthday r1
    if ge then do
      let l ← iter_older_keys min_birthday rest
      Except.ok (k :: l)
    else Except.ok []

/-- ForgetfulStorage.cull: pop one oldest entry per key reported by
iter_older_than(ttl). -/
def cull (st : TokenSt) (now ttl : Int) : Except String TokenSt := do
  let olds ← iter_older_keys (now - ttl) st
  Except.ok (st.drop olds.length)

/-- ForgetfulStorage.get / __getitem__ chain: cull, then if the key is
present cull again and return data[key][1]; absent keys yield the None
default. -/
def storage_get (st : TokenSt) (now ttl : Int) (key : Bytes) :
    Except String (Option PV × TokenSt) := do
  let st1 ← cull st now ttl
  match lookupTok st1 key with
  | none => Except.ok (none, st1)
  | some _ => do
    let st2 ← cull st1 now ttl
    match lookupTok st2 key with
    | none => Except.error "KeyError"
    | some v => do
      let r ← pyItem v 1
      Except.ok (some r, st2)

/-- ForgetfulTokenStorage.get_token: store the bare (sender_ip, node_id,
info_hash) triple under the freshly drawn token (the 16 random bytes are a
parameter). -/
def token_get_token (st : TokenSt) (token : Bytes) (sender_ip : String)
    (id info_hash : Bytes) : TokenSt :=
  dictInsertTok st token (PV.ptup [PV.pstr sender_ip, PV.pbytes id, PV.pbytes info_hash])

/-- Dict deletion for the token dict. -/
def dictRemoveTok (st : TokenSt) (key : Bytes) : TokenSt :=
  st.filter (fun kv => kv.1 ≠ key)

/-- ForgetfulTokenStorage.verify_token: cull, read the stored value via
the inherited get, compare it with the (sender_ip, id, info_hash) triple
and delete the token on success. -/
def verify_token (st : TokenSt) (now ttl : Int) (sender_ip : String)
    (id info_hash token : Bytes) : Except String (Bool × TokenSt) := do
  let st1 ← cull st now ttl
  let gs ← storage_get st1 now ttl token
  let triple := PV.ptup [PV.pstr sender_ip, PV.pbytes id, PV.pbytes info_hash]
  let eq := match gs.1 with
    | none => false
    | some v => pvEq v triple
  if eq then Except.ok (true, dictRemoveTok gs.2 token)
  else Except.ok (false, gs.2)

/-- Token-storage states reachable in dht/protocol.py: the dict starts
empty and is only written by get_token. -/
inductive TokenWF : TokenSt → Prop
  | nil : TokenWF []
  | ins (st : TokenSt) (token : Bytes) (ip : String) (id ih : Bytes) :
      TokenWF st → TokenWF (token_get_token st token ip id ih)

/-- Shape of every value get_token stores. -/
def isTokenTriple : PV → Bool
  | PV.ptup [PV.pstr _, PV.pbytes _, PV.pbytes _] => true
  | _ => false

/-- Peer-storage dict of ForgetfulPeerStorage: info_hash to a dict from
peer address to insertion time. -/
abbrev PeerSt := List (Bytes × List ((String × Nat) × Int))

/-- ForgetfulPeerStorage.insert_peer(self, info_hash, peer): record the
peer under the info-hash with the current clock. -/
def insert_peer (st : PeerSt) (info_hash : Bytes) (peer : String × Nat)
    (now : Int) : PeerSt :=
  match st.find? (fun kv => kv.1 = info_hash) with
  | some _ =>
    st.map (fun kv =>
      if kv.1 = info_hash then
        (kv.1, if (kv.2.map Prod.fst).contains peer then
                 kv.2.map (fun pv => if pv.1 = peer then (peer, now) else pv)
               else kv.2 ++ [(peer, now)])
      else kv)
  | none => st ++ [(info_hash, [(peer, now)])]

/-- Positional argument of a call to insert_peer. -/
inductive InsertPeerArg
  | hashArg (b : Bytes)
  | peerArg (p : String × Nat)

/-- Python call semantics of insert_peer: the method requires the two
positional parameters info_hash and peer, so any other argument list
raises a TypeError. -/
def insert_peer_call (st : PeerSt) (now : Int) :
    List InsertPeerArg → Except String PeerSt
  | [InsertPeerArg.hashArg ih, InsertPeerArg.peerArg p] =>
    Except.ok (insert_peer st ih p now)
  | _ => Except.error "TypeError"

/-- ForgetfulPeerStorage.cull: drop peers older than the ttl and then
info-hashes left without peers. -/
def peer_storage_cull (st : PeerSt) (now ttl : Int) : PeerSt :=
  (st.map (fun kv => (kv.1, kv.2.filter (fun pv => now - pv.2 < ttl)))).filter
    (fun kv => ¬kv.2.isEmpty)

/-- ForgetfulPeerStorage.get_peers: cull, then the peer keys stored under
the info-hash. -/
def get_peers_stored (st : PeerSt) (now ttl : Int) (info_hash : Bytes) :
    List (String × Nat) :=
  match (peer_storage_cull st now ttl).find? (fun kv => kv.1 = info_hash) with
  | some kv => kv.2.map Prod.fst
  | none => []

/-- KRPCProtocol.rpc_announce_peer: validate the sender id, verify the
token, and on success store the announcing peer — the source calls
insert_peer with the single argument (sender_ip, port).  The reply is the
id-echo dictionary; propagated Python exceptions are Except errors (the
handler task then dies and no reply is sent). -/
def rpc_announce_peer (token_st : TokenSt) (peer_st : PeerSt) (now ttl : Int)
    (sender : String × Nat) (id info_hash : Bytes) (port : Nat) (token : Bytes)
    (implied_port : Option Nat) :
    Except String (TokenSt × PeerSt × Option (List (Bytes × BVal))) := do
  if ¬is_valid_node_id id then Except.ok (token_st, peer_st, none)
  else do
    let vt ← verify_token token_st now ttl sender.1 id info_hash token
    if vt.1 then do
      let port := match implied_port with
        | some n => if n ≠ 0 then sender.2 else port
        | none => port
      let peer_st2 ← insert_peer_call peer_st now [InsertPeerArg.peerArg (sender.1, port)]
      Except.ok (vt.2, peer_st2, some [(keyId, BVal.bstr id)])
    else Except.ok (vt.2, peer_st, some [(keyId, BVal.bstr id)])

/-! ## UDP tracker client (udptracker.py, TrackerUDPProtocol)

Datagrams are byte lists; struct fields are decoded big-endian.  The
random transaction id drawn by get_transaction_id during send_announce is
a parameter of the transition.
-/

/-- Big-endian integer of a byte slice (the concrete runs below stay in
the non-negative range where signed and unsigned agree). -/
def intFromBytesBE (bs : Bytes) : Nat :=
  bs.foldl (fun a b => 256 * a + b) 0

/-- Protocol phase of TrackerUDPProtocol.state. -/
inductive UdpPhase
  | connectPhase
  | announcePhase
deriving DecidableEq

/-- Result dictionary resolved into the tracker future. -/
structure UdpResult where
  seeders : Nat
  leechers : Nat
  peers : List PeerAddr
deriving DecidableEq

/-- TrackerUDPProtocol state: phase, the transaction id most recently
drawn by get_transaction_id, the connection id learned from the connect
response, and the result future. -/
structure UdpTrackerState where
  phase : UdpPhase
  last_transaction_id : Option Nat
  connection_id : Option Nat
  cb : Option UdpResult
deriving DecidableEq

/-- State right after connection_made/send_connect drew the given
transaction id. -/
def udpAfterConnect (txid : Nat) : UdpTrackerState :=
  { phase := UdpPhase.connectPhase, last_transaction_id := some txid,
    connection_id := none, cb := none }

/-- Outbound datagram record of send_announce (connection id and the
fresh transaction id; the remaining announce fields are constants). -/
structure AnnounceSent where
  connection_id : Nat
  transaction_id : Nat
deriving DecidableEq

/-- Peer parsing loop of the announce branch: consume 6-byte records. -/
def parse_compact_peers : Bytes → List PeerAddr
  | b0 :: b1 :: b2 :: b3 :: p0 :: p1 :: rest =>
    (intFromBytesBE [b0, b1, b2, b3], 256 * p0 + p1) :: parse_compact_peers rest
  | _ => []

/-- TrackerUDPProtocol._handle_response.  In the connect phase a 16-byte
datagram is unpacked as (action, transaction_id, connection_id); the
transaction id is bound but never compared against last_transaction_id;
the state advances and send_announce fires with a fresh transaction id.
In the announce phase a datagram of at least 20 bytes is unpacked,
likewise without any transaction id check, and the future is resolved
with the parsed peers. -/
def handle_response (s : UdpTrackerState) (announce_txid : Nat) (data : Bytes) :
    UdpTrackerState × List AnnounceSent :=
  match s.phase with
  | UdpPhase.connectPhase =>
    if data.length ≠ 16 then (s, [])
    else
      let connection_id := intFromBytesBE (data.drop 8)
      let s := { s with connection_id := some connection_id,
                        phase := UdpPhase.announcePhase,
                        last_transaction_id := some announce_txid }
      (s, [{ connection_id := connection_id, transaction_id := announce_txid }])
  | UdpPhase.announcePhase =>
    if data.length < 20 then (s, [])
    else
      let leechers := intFromBytesBE ((data.drop 12).take 4)
      let seeders := intFromBytesBE ((data.drop 16).take 4)
      let peers := parse_compact_peers (data.drop 20)
      if s.cb.isSome then (s, [])
      else ({ s with cb := some { seeders := seeders, leechers := leechers, peers := peers } }, [])

/-! ## Concrete sample inputs used by closed theorems -/

/-- A 40-character lowercase hex info-hash string. -/
def hex40chars : List Char := "0123456789abcdef0123456789abcdef01234567".toList

/-- Bytes of hex40chars. -/
def hexBytes20 : Bytes :=
  [1, 35, 69, 103, 137, 171, 205, 239, 1, 35, 69, 103, 137, 171, 205, 239, 1, 35, 69, 103]

/-- A 32-character base32 string with trailing padding: 26 alphabet
characters followed by 6 padding characters, a valid RFC 4648 encoding of
a 16-byte value. -/
def paddedB32chars : List Char := List.replicate 26 'A' ++ List.replicate 6 '='

/-- Constant stand-in for the external SHA-1 collaborator in concrete
runs. -/
def sha1const : Bytes → Bytes := fun _ => List.replicate 20 7

/-- The info-hash matching sha1const on every input. -/
def ih20 : Bytes := List.replicate 20 7

/-- Events of a successful metadata exchange: the peer's extension
handshake advertises ut_metadata with metadata size 1, then one metadata
piece of one byte arrives. -/
def evsWin : List PeerEvent :=
  [PeerEvent.extMsg (ExtMessage.handshakeMsg true 3 (some 1)),
   PeerEvent.extMsg (ExtMessage.dataMsg 1 0 [9])]

/-- Spider state at the start of a lookup with three uncontacted seeds
and alpha 1. -/
def spiderSeeds : SpiderState :=
  { alpha := 1,
    nearest := [{ nodeId := 1, contacted := false }, { nodeId := 2, contacted := false },
                { nodeId := 3, contacted := false }],
    last_ids_crawled := [] }

/-- Spider state with a fresh (non-stalled) id list. -/
def freshSpider : SpiderState :=
  { alpha := 1, nearest := [{ nodeId := 1, contacted := false }], last_ids_crawled := [] }

/-- A sample 16-byte token. -/
def tok16 : Bytes := List.replicate 16 0

/-- A sample 20-byte node id. -/
def id20A : Bytes := List.replicate 20 1

/-- A sample 20-byte info-hash. -/
def ih20B : Bytes := List.replicate 20 2

/-- Connect-phase response datagram carrying action 0, transaction id 2
and connection id 42. -/
def udpConnectDatagram : Bytes :=
  [0, 0, 0, 0, 0, 0, 0, 2, 0, 0, 0, 0, 0, 0, 0, 42]

/-- Tracker state waiting for the announce response after sending an
announce with transaction id 5. -/
def udpAnnounceState : UdpTrackerState :=
  { phase := UdpPhase.announcePhase, last_transaction_id := some 5,
    connection_id := some 42, cb := none }

/-- Announce-phase response datagram carrying action 1, transaction id 9,
interval 600, leechers 3, seeders 4 and one compact peer 10.0.0.1:6881. -/
def udpAnnounceDatagram : Bytes :=
  [0, 0, 0, 1, 0, 0, 0, 9, 0, 0, 2, 88, 0, 0, 0, 3, 0, 0, 0, 4, 10, 0, 0, 1, 26, 225]

/-! ## Theorems -/

/-- Hex decoding consumes exactly two characters per output byte. -/
theorem unhexlify_length : ∀ (s : List Char) (bs : Bytes),
    unhexlify s = some bs → s.length = 2 * bs.length
  | [], bs, h => by
      simp only [unhexlify] at h
      cases h
      rfl
  | [_], _, h => by
      simp only [unhexlify] at h
      exact absurd h (by simp)
  | c1 :: c2 :: rest, bs, h => by
      simp only [unhexlify] at h
      split at h
      case _ d1 d2 bs2 hd1 hd2 hrest =>
        cases h
        have hr := unhexlify_length rest bs2 hrest
        simp [List.length_cons, hr]
        omega
      case _ =>
        exact absurd h (by simp)

/-- The base32 quanta loop produces five bytes per (possibly partial)
quantum; for inputs whose length is a multiple of eight this is five
bytes per eight characters. -/
theorem b32go_length_mod8 : ∀ (cs : List Char) (d : Bytes) (a : Nat),
    cs.length % 8 = 0 → b32go cs = some (d, a) → d.length = 5 * (cs.length / 8)
  | [], d, a, _, h => by
      simp only [b32go] at h
      cases h
      rfl
  | [_], _, _, hm, _ => by simp at hm
  | [_, _], _, _, hm, _ => by simp at hm
  | [_, _, _], _, _, hm, _ => by simp at hm
  | [_, _, _, _], _, _, hm, _ => by simp at hm
  | [_, _, _, _, _], _, _, hm, _ => by simp at hm
  | [_, _, _, _, _, _], _, _, hm, _ => by simp at hm
  | [_, _, _, _, _, _, _], _, _, hm, _ => by simp at hm
  | c0 :: c1 :: c2 :: c3 :: c4 :: c5 :: c6 :: c7 :: rest, d, a, hm, h => by
      simp only [b32go] at h
      split at h
      case _ a2 d2 la2 hq hrest =>
        cases h
        have hrm : rest.length % 8 = 0 := by
          simp only [List.length_cons] at hm
          omega
        have hr := b32go_length_mod8 rest d2 la2 hrm hrest
        simp [toBytes5, List.length_append, hr, List.length_cons]
        omega
      case _ =>
        exact absurd h (by simp)

/-- Stripping trailing padding is the identity on strings without any
padding character. -/
theorem rstripEq_of_not_mem (s : List Char) (h : '=' ∉ s) : rstripEq s = s := by
  unfold rstripEq
  have hd : s.reverse.dropWhile (fun c => c = '=') = s.reverse := by
    cases hr : s.reverse with
    | nil => simp
    | cons c cs =>
      have hc : c ∈ s := by
        have hm : c ∈ s.reverse := by
          rw [hr]
          exact List.mem_cons_self c cs
        simpa using hm
      have hne : ¬(c = '=') := fun hcc => h (hcc ▸ hc)
      simp [List.dropWhile_cons, hne]
  rw [hd, List.reverse_reverse]

/-- A 32-character base32 input without padding decodes to exactly 20
bytes. -/
theorem b32decodePy_unpadded_length (s : List Char) (h32 : s.length = 32)
    (hne : '=' ∉ s) (bs : Bytes) (hres : b32decodePy s = some bs) :
    bs.length = 20 := by
  unfold b32decodePy at hres
  rw [rstripEq_of_not_mem s hne, h32] at hres
  norm_num at hres
  cases hg : b32go s with
  | none => rw [hg] at hres; exact absurd hres (by simp)
  | some da =>
    obtain ⟨d, a⟩ := da
    rw [hg] at hres
    simp at hres
    rw [h32] at hres
    norm_num at hres
    have hl := b32go_length_mod8 s d a (by rw [h32]) hg
    rw [h32] at hl
    subst hres
    simpa using hl

/-- CLAIM C4 counterexample: a 32-character xt hash consisting of 26
base32 digits and 6 padding characters is decoded by base32.b32decode to
a 16-byte value, so parsing succeeds with an info-hash that is not 20
bytes long, contradicting the claim that a 32-character hash yields a
20-byte info-hash. -/
theorem c4_counterexample_padded_base32 :
    paddedB32chars.length = 32 ∧
    parseInfohash paddedB32chars = some (List.replicate 16 0) ∧
    (List.replicate 16 (0 : Nat)).length ≠ 20 := by
  refine ⟨by decide, by decide, by decide⟩

/-- CLAIM C4 (amended): a 40-character hash is decoded as hex and, when
decoding succeeds, yields a 20-byte info-hash; a 32-character hash is
decoded as base32 and yields a 20-byte info-hash when it contains no
padding character (a padded 32-character input decodes to fewer bytes);
every other length fails; and when dn is absent the derived name is the
lowercase hex of the info-hash. -/
theorem c4_parse_url_amended : ∀ (s : List Char),
    (s.length ≠ 40 → s.length ≠ 32 → parseInfohash s = none) ∧
    (s.length = 40 → parseInfohash s = unhexlify s) ∧
    (s.length = 32 → parseInfohash s = b32decodePy s) ∧
    (∀ bs, s.length = 40 → parseInfohash s = some bs → bs.length = 20) ∧
    (∀ bs, s.length = 32 → '=' ∉ s → parseInfohash s = some bs → bs.length = 20) ∧
    (∀ tr ih tr2 nm, parse_url s tr none = some (ih, tr2, nm) →
      nm = hexlify ih ∧ tr2 = tr) := by
  intro s
  refine ⟨?_, ?_, ?_, ?_, ?_, ?_⟩
  · intro h40 h32
    simp [parseInfohash, h40, h32]
  · intro h40
    simp [parseInfohash, h40]
  · intro h32
    have h40 : s.length ≠ 40 := by omega
    simp [parseInfohash, h40, h32]
  · intro bs h40 hp
    rw [parseInfohash, if_pos h40] at hp
    have := unhexlify_length s bs hp
    omega
  · intro bs h32 hne hp
    have h40 : s.length ≠ 40 := by omega
    rw [parseInfohash, if_neg (by omega), if_pos h32] at hp
    exact b32decodePy_unpadded_length s h32 hne bs hp
  · intro tr ih tr2 nm hp
    unfold parse_url at hp
    cases hq : parseInfohash s with
    | none => rw [hq] at hp; exact absurd hp (by simp)
    | some ih2 =>
      rw [hq] at hp
      simp at hp
      obtain ⟨h1, h2, h3⟩ := hp
      subst h1; subst h2; subst h3
      exact ⟨rfl, rfl⟩

/-- Witness for the amended C4 theorem at the concrete 40-hex input. -/
theorem c4_parse_url_amended_witness :
    hexBytes20.length = 20 ∧ hexlify hexBytes20 = hex40chars :=
  ⟨(c4_parse_url_amended hex40chars).2.2.2.1 hexBytes20 (by decide) (by decide),
   by decide⟩

/-- kill leaves the target info-hash unchanged. -/
theorem kill_infohash (c : PeerConn) : (kill c).infohash = c.infohash := by
  by_cases h : c.cb.isSome <;> simp [kill, h]

/-- The future after kill: unchanged when already done, resolved with
None otherwise. -/
theorem kill_cb (c : PeerConn) :
    (kill c).cb = if c.cb.isSome then c.cb else some none := by
  by_cases h : c.cb.isSome <;> simp [kill, h]

/-- connection_lost leaves the target info-hash unchanged. -/
theorem connection_lost_infohash (c : PeerConn) :
    (connection_lost c).infohash = c.infohash := by
  by_cases h : c.cb.isSome <;> simp [connection_lost, h]

/-- The future after connection_lost: unchanged when already done,
resolved with None otherwise. -/
theorem connection_lost_cb (c : PeerConn) :
    (connection_lost c).cb = if c.cb.isSome then c.cb else some none := by
  by_cases h : c.cb.isSome <;> simp [connection_lost, h]

/-- verify_and_set_result leaves the target info-hash unchanged. -/
theorem verify_infohash (sha1 : Bytes → Bytes) (c : PeerConn) :
    (verify_and_set_result sha1 c).infohash = c.infohash := by
  by_cases h1 : c.cb.isSome
  · simp [verify_and_set_result, h1]
  · by_cases h2 : sha1 (dictValuesConcat c.torrent_data) = c.infohash <;>
      simp [verify_and_set_result, h1, h2]

/-- verify_and_set_result either leaves the future untouched or resolves
it with the concatenated pieces, and in the latter case their digest
equals the target info-hash. -/
theorem verify_cb_cases (sha1 : Bytes → Bytes) (c : PeerConn) :
    (verify_and_set_result sha1 c).cb = c.cb ∨
    ((verify_and_set_result sha1 c).cb = some (some (dictValuesConcat c.torrent_data)) ∧
     sha1 (dictValuesConcat c.torrent_data) = c.infohash) := by
  by_cases h1 : c.cb.isSome
  · left
    simp [verify_and_set_result, h1]
  · by_cases h2 : sha1 (dictValuesConcat c.torrent_data) = c.infohash
    · right
      refine ⟨?_, h2⟩
      simp [verify_and_set_result, h1, h2]
    · left
      simp [verify_and_set_result, h1, h2]

/-- Resolving through kill after verify_and_set_result preserves the
verification invariant: any bytes the future holds afterwards hash to the
target info-hash. -/
theorem kill_verify_cb_verified (sha1 : Bytes → Bytes) (c : PeerConn)
    (hc : ∀ b, c.cb = some (some b) → sha1 b = c.infohash) :
    ∀ b, (kill (verify_and_set_result sha1 c)).cb = some (some b) →
      sha1 b = c.infohash := by
  intro b hb
  rw [kill_cb] at hb
  rcases verify_cb_cases sha1 c with hv | ⟨hv, hh⟩ <;> rw [hv] at hb
  · split at hb
    · exact hc b hb
    · exact absurd hb (by simp)
  · simp at hb
    subst hb
    exact hh

/-- handle_extended_action leaves the target info-hash unchanged. -/
theorem handle_ext_infohash (sha1 : Bytes → Bytes) (c : PeerConn) (m : ExtMessage) :
    (handle_extended_action sha1 c m).infohash = c.infohash := by
  cases m with
  | handshakeMsg has_ut utId msize =>
    by_cases h : has_ut <;> simp [handle_extended_action, h, kill_infohash]
  | dataMsg mt piece data =>
    by_cases h2 : mt = 2
    · simp [handle_extended_action, h2, kill_infohash]
    · by_cases h1 : mt = 1
      · simp only [handle_extended_action, if_neg h2, if_pos h1]
        cases hsz : c.expected_torrent_size with
        | none => simp [hsz, connection_lost_infohash]
        | some sz =>
          by_cases hlt : sumLens (dictInsert c.torrent_data piece data) < sz <;>
            simp [hsz, hlt, kill_infohash, verify_infohash]
      · simp [handle_extended_action, h2, h1]

/-- handle_extended_action preserves the verification invariant. -/
theorem handle_ext_cb_verified (sha1 : Bytes → Bytes) (c : PeerConn) (m : ExtMessage)
    (hc : ∀ b, c.cb = some (some b) → sha1 b = c.infohash) :
    ∀ b, (handle_extended_action sha1 c m).cb = some (some b) → sha1 b = c.infohash := by
  have hkill : ∀ b, (kill c).cb = some (some b) → sha1 b = c.infohash := by
    intro b hb
    rw [kill_cb] at hb
    split at hb
    · exact hc b hb
    · exact absurd hb (by simp)
  cases m with
  | handshakeMsg has_ut utId msize =>
    by_cases h : has_ut
    · simpa [handle_extended_action, h] using hc
    · simpa [handle_extended_action, h] using hkill
  | dataMsg mt piece data =>
    by_cases h2 : mt = 2
    · simpa [handle_extended_action, h2] using hkill
    · by_cases h1 : mt = 1
      · simp only [handle_extended_action, if_neg h2, if_pos h1]
        cases hsz : c.expected_torrent_size with
        | none =>
          intro b hb
          simp only [hsz] at hb
          rw [connection_lost_cb] at hb
          simp at hb
          split at hb
          · exact hc b hb
          · exact absurd hb (by simp)
        | some sz =>
          by_cases hlt : sumLens (dictInsert c.torrent_data piece data) < sz
          · intro b hb
            simp only [hsz, if_pos hlt] at hb
            exact hc b hb
          · intro b hb
            simp only [hsz, if_neg hlt] at hb
            refine kill_verify_cb_verified sha1
              { c with torrent_data := dictInsert c.torrent_data piece data,
                       expected_torrent_size := some sz } ?_ b ?_
            · intro b2 hb2
              exact hc b2 hb2
            · exact hb
      · simpa [handle_extended_action, h2, h1] using hc

/-- One protocol step leaves the target info-hash unchanged. -/
theorem peerStep_infohash (sha1 : Bytes → Bytes) (c : PeerConn) (e : PeerEvent) :
    (peerStep sha1 c e).infohash = c.infohash := by
  cases e <;>
    simp [peerStep, kill_infohash, connection_lost_infohash, handle_ext_infohash]

/-- One protocol step preserves the verification invariant: if every
resolution with bytes so far hashed to the target, the same holds after
the step. -/
theorem peerStep_cb_verified (sha1 : Bytes → Bytes) (c : PeerConn) (e : PeerEvent)
    (hc : ∀ b, c.cb = some (some b) → sha1 b = c.infohash) :
    ∀ b, (peerStep sha1 c e).cb = some (some b) → sha1 b = c.infohash := by
  have hkill : ∀ b, (kill c).cb = some (some b) → sha1 b = c.infohash := by
    intro b hb
    rw [kill_cb] at hb
    split at hb
    · exact hc b hb
    · exact absurd hb (by simp)
  have hlost : ∀ b, (connection_lost c).cb = some (some b) → sha1 b = c.infohash := by
    intro b hb
    rw [connection_lost_cb] at hb
    split at hb
    · exact hc b hb
    · exact absurd hb (by simp)
  cases e with
  | extMsg m => exact handle_ext_cb_verified sha1 c m hc
  | otherAction => exact hc
  | oversized => exact hkill
  | badHandshake => exact hkill
  | connLost => exact hlost
  | timeoutKill => exact hkill
  | cancelKill => exact hkill

/-- The invariant holds along any event sequence. -/
theorem peerFold_cb_verified (sha1 : Bytes → Bytes) :
    ∀ (evs : List PeerEvent) (c : PeerConn),
      (∀ b, c.cb = some (some b) → sha1 b = c.infohash) →
      ∀ b, (evs.foldl (peerStep sha1) c).cb = some (some b) →
        sha1 b = (evs.foldl (peerStep sha1) c).infohash
  | [], c, hc => by simpa using hc
  | e :: rest, c, hc => by
    intro b hb
    simp only [List.foldl_cons] at hb ⊢
    have hstep := peerStep_cb_verified sha1 c e hc
    have hih : ∀ b, (peerStep sha1 c e).cb = some (some b) →
        sha1 b = (peerStep sha1 c e).infohash := by
      intro b hb2
      rw [peerStep_infohash]
      exact hstep b hb2
    exact peerFold_cb_verified sha1 rest (peerStep sha1 c e) hih b hb

/-- A whole run leaves the target info-hash unchanged. -/
theorem peerFold_infohash (sha1 : Bytes → Bytes) :
    ∀ (evs : List PeerEvent) (c : PeerConn),
      (evs.foldl (peerStep sha1) c).infohash = c.infohash
  | [], _ => rfl
  | e :: rest, c => by
    simp only [List.foldl_cons]
    rw [peerFold_infohash sha1 rest (peerStep sha1 c e), peerStep_infohash]

/-- CLAIM C1: whenever fetch_from_peer hands bytes to the orchestrator —
for any hash function, target info-hash and sequence of connection
events — the SHA-1 digest of those bytes (the concatenated metadata
pieces) equals the magnet's info-hash: a peer whose assembled metadata
hashes to anything else never resolves its result with those bytes, so no
unverified metadata ever reaches the torrent envelope or the cache. -/
theorem c1_no_unverified_metadata (sha1 : Bytes → Bytes) (infohash : Bytes)
    (evs : List PeerEvent) (b : Bytes)
    (h : fetchFromPeerResult sha1 infohash evs = some b) : sha1 b = infohash := by
  unfold fetchFromPeerResult at h
  have hcb : (peerRun sha1 infohash evs).cb = some (some b) := by
    cases hx : (peerRun sha1 infohash evs).cb with
    | none => rw [hx] at h; exact absurd h (by simp)
    | some x => rw [hx] at h; simp at h; rw [h]
  have hinit : ∀ b2, (peerInit infohash).cb = some (some b2) →
      sha1 b2 = (peerInit infohash).infohash := by
    intro b2 hb2
    exact absurd hb2 (by simp [peerInit])
  have := peerFold_cb_verified sha1 evs (peerInit infohash) hinit b hcb
  rwa [peerFold_infohash, show (peerInit infohash).infohash = infohash from rfl] at this

/-- Witness for C1: a concrete successful exchange where the stand-in
hash of the received piece equals the target. -/
theorem c1_witness : sha1const [9] = ih20 :=
  c1_no_unverified_metadata sha1const ih20 evsWin [9] (by decide)

/-- One protocol step never changes an already-resolved future. -/
theorem peerStep_cb_stable (sha1 : Bytes → Bytes) (c : PeerConn) (e : PeerEvent)
    (x : Option Bytes) (hx : c.cb = some x) : (peerStep sha1 c e).cb = some x := by
  have hsome : c.cb.isSome := by rw [hx]; rfl
  have hkill : (kill c).cb = some x := by rw [kill_cb, if_pos hsome, hx]
  have hlost : (connection_lost c).cb = some x := by
    rw [connection_lost_cb, if_pos hsome, hx]
  cases e with
  | extMsg m =>
    cases m with
    | handshakeMsg has_ut utId msize =>
      by_cases h : has_ut
      · simpa [peerStep, handle_extended_action, h] using hx
      · simpa [peerStep, handle_extended_action, h] using hkill
    | dataMsg mt piece data =>
      by_cases h2 : mt = 2
      · simpa [peerStep, handle_extended_action, h2] using hkill
      · by_cases h1 : mt = 1
        · simp only [peerStep, handle_extended_action, if_neg h2, if_pos h1]
          have hsome2 : ({ c with torrent_data := dictInsert c.torrent_data piece data } :
              PeerConn).cb.isSome := hsome
          cases hsz : c.expected_torrent_size with
          | none =>
            simp only [hsz]
            rw [connection_lost_cb, if_pos hsome2]
            exact hx
          | some sz =>
            by_cases hlt : sumLens (dictInsert c.torrent_data piece data) < sz
            · simp only [hsz, if_pos hlt]
              exact hx
            · simp only [hsz, if_neg hlt]
              have hv : (verify_and_set_result sha1
                  { c with torrent_data := dictInsert c.torrent_data piece data,
                           expected_torrent_size := some sz }).cb = some x := by
                simp [verify_and_set_result, hsome2]
                exact hx
              rw [kill_cb, hv]
              simp
        · simpa [peerStep, handle_extended_action, h2, h1] using hx
  | otherAction => exact hx
  | oversized => exact hkill
  | badHandshake => exact hkill
  | connLost => exact hlost
  | timeoutKill => exact hkill
  | cancelKill => exact hkill

/-- A resolved future stays resolved with the same value along any event
suffix. -/
theorem peerFold_cb_stable (sha1 : Bytes → Bytes) :
    ∀ (evs : List PeerEvent) (c : PeerConn) (x : Option Bytes),
      c.cb = some x → (evs.foldl (peerStep sha1) c).cb = some x
  | [], _, _, hx => hx
  | e :: rest, c, x, hx => by
    simp only [List.foldl_cons]
    exact peerFold_cb_stable sha1 rest (peerStep sha1 c e)
      x (peerStep_cb_stable sha1 c e x hx)

/-- CLAIM C10: the per-connection result future is resolved at most once:
once a run of fetch_from_peer's connection has produced its outcome
(bytes or None), any further events — verified results, connection loss,
kills, timeouts, cancellations — leave that outcome unchanged, so one
fetch_from_peer call yields at most one value. -/
theorem c10_future_resolved_once (sha1 : Bytes → Bytes) (infohash : Bytes)
    (evs extra : List PeerEvent) (x : Option Bytes)
    (h : (peerRun sha1 infohash evs).cb = some x) :
    (peerRun sha1 infohash (evs ++ extra)).cb = some x := by
  unfold peerRun at h ⊢
  rw [List.foldl_append]
  exact peerFold_cb_stable sha1 extra _ x h

/-- Witness for C10: a connection resolved with None by connection loss
keeps that outcome through a later cancellation kill. -/
theorem c10_witness :
    (peerRun sha1const ih20 ([PeerEvent.connLost] ++ [PeerEvent.cancelKill])).cb =
      some none :=
  c10_future_resolved_once sha1const ih20 [PeerEvent.connLost] [PeerEvent.cancelKill]
    none (by decide)

/-- Walking one tracker result preserves and extends the dedup invariant:
the spawned list stays duplicate-free, it tracks the handled set, and the
handled set grows by exactly the peers of the result. -/
theorem handle_tracker_peers_spec :
    ∀ (r h s : List PeerAddr), s.Nodup → (∀ q, q ∈ s ↔ q ∈ h) →
      ((handle_tracker_peers h s r).2.Nodup ∧
       (∀ q, q ∈ (handle_tracker_peers h s r).2 ↔ q ∈ (handle_tracker_peers h s r).1) ∧
       (∀ q, q ∈ (handle_tracker_peers h s r).1 ↔ q ∈ h ∨ q ∈ r))
  | [], h, s, hnd, hiff => by
    refine ⟨hnd, hiff, ?_⟩
    intro q
    simp [handle_tracker_peers, hiff q]
  | p :: rest, h, s, hnd, hiff => by
    by_cases hp : p ∈ h
    · have ih := handle_tracker_peers_spec rest h s hnd hiff
      simp only [handle_tracker_peers, if_pos hp]
      refine ⟨ih.1, ih.2.1, ?_⟩
      intro q
      rw [ih.2.2 q, List.mem_cons]
      constructor
      · rintro (hq | hq)
        · exact Or.inl hq
        · exact Or.inr (Or.inr hq)
      · rintro (hq | rfl | hq)
        · exact Or.inl hq
        · exact Or.inl hp
        · exact Or.inr hq
    · have hps : p ∉ s := fun hs => hp ((hiff p).mp hs)
      have hnd2 : (s ++ [p]).Nodup := by
        simp [List.nodup_append, hnd, hps]
      have hiff2 : ∀ q, q ∈ s ++ [p] ↔ q ∈ p :: h := by
        intro q
        simp only [List.mem_append, List.mem_singleton, List.mem_cons, hiff q]
        tauto
      have ih := handle_tracker_peers_spec rest (p :: h) (s ++ [p]) hnd2 hiff2
      simp only [handle_tracker_peers, if_neg hp]
      refine ⟨ih.1, ih.2.1, ?_⟩
      intro q
      rw [ih.2.2 q, List.mem_cons, List.mem_cons]
      tauto

/-- The whole retrieve loop preserves the dedup invariant across the
sequence of tracker results. -/
theorem retrieve_loop_spec :
    ∀ (results : List (List PeerAddr)) (h s : List PeerAddr),
      s.Nodup → (∀ q, q ∈ s ↔ q ∈ h) →
      ((retrieve_loop h s results).2.Nodup ∧
       (∀ q, q ∈ (retrieve_loop h s results).2 ↔ q ∈ (retrieve_loop h s results).1) ∧
       (∀ q, q ∈ (retrieve_loop h s results).1 ↔ q ∈ h ∨ q ∈ results.flatten))
  | [], h, s, hnd, hiff => by
    refine ⟨hnd, hiff, ?_⟩
    intro q
    simp [retrieve_loop, hiff q]
  | r :: rs, h, s, hnd, hiff => by
    have hr := handle_tracker_peers_spec r h s hnd hiff
    have ih := retrieve_loop_spec rs (handle_tracker_peers h s r).1
      (handle_tracker_peers h s r).2 hr.1 hr.2.1
    simp only [retrieve_loop]
    refine ⟨ih.1, ih.2.1, ?_⟩
    intro q
    rw [ih.2.2 q, hr.2.2 q]
    simp only [List.flatten_cons, List.mem_append]
    tauto

/-- Walking one tracker result only appends to the spawned list. -/
theorem handle_tracker_peers_append :
    ∀ (r h s : List PeerAddr), ∃ t, (handle_tracker_peers h s r).2 = s ++ t
  | [], h, s => ⟨[], by simp [handle_tracker_peers]⟩
  | p :: rest, h, s => by
    by_cases hp : p ∈ h
    · simp only [handle_tracker_peers, if_pos hp]
      exact handle_tracker_peers_append rest h s
    · simp only [handle_tracker_peers, if_neg hp]
      obtain ⟨t, ht⟩ := handle_tracker_peers_append rest (p :: h) (s ++ [p])
      exact ⟨[p] ++ t, by rw [ht, List.append_assoc]⟩

/-- The retrieve loop only appends to the spawned list. -/
theorem retrieve_loop_append_spawned :
    ∀ (rs : List (List PeerAddr)) (h s : List PeerAddr),
      ∃ t, (retrieve_loop h s rs).2 = s ++ t
  | [], _, s => ⟨[], by simp [retrieve_loop]⟩
  | r :: rest, h, s => by
    simp only [retrieve_loop]
    obtain ⟨t1, ht1⟩ := handle_tracker_peers_append r h s
    obtain ⟨t2, ht2⟩ := retrieve_loop_append_spawned rest
      (handle_tracker_peers h s r).1 (handle_tracker_peers h s r).2
    exact ⟨t1 ++ t2, by rw [ht2, ht1, List.append_assoc]⟩

/-- The retrieve loop over a split result sequence factors through its
intermediate state. -/
theorem retrieve_loop_split :
    ∀ (rs1 rs2 : List (List PeerAddr)) (h s : List PeerAddr),
      retrieve_loop h s (rs1 ++ rs2) =
        retrieve_loop (retrieve_loop h s rs1).1 (retrieve_loop h s rs1).2 rs2
  | [], rs2, h, s => by simp [retrieve_loop]
  | r :: rest, rs2, h, s => by
    simp only [List.cons_append, retrieve_loop]
    exact retrieve_loop_split rest rs2 _ _

/-- CLAIM C2: during one retrieve_torrent call, for every peer address
and every sequence of tracker and DHT results, at most one peer task is
spawned for that address (the spawned list is duplicate-free), an address
is spawned exactly when some source announced it, and later results only
append to the spawned list — so the task for an address is the one
spawned at its first announcement and later duplicates are dropped by
handled_peers. -/
theorem c2_peer_spawned_at_most_once (results : List (List PeerAddr)) :
    (spawned_peer_tasks results).Nodup ∧
    (∀ p, p ∈ spawned_peer_tasks results ↔ p ∈ results.flatten) ∧
    (∀ rs2, ∃ tail,
      spawned_peer_tasks (results ++ rs2) = spawned_peer_tasks results ++ tail) := by
  have hs := retrieve_loop_spec results [] [] (by simp) (by simp)
  refine ⟨hs.1, ?_, ?_⟩
  · intro p
    unfold spawned_peer_tasks
    rw [hs.2.1 p, hs.2.2 p]
    simp
  · intro rs2
    unfold spawned_peer_tasks
    rw [retrieve_loop_split results rs2 [] []]
    exact retrieve_loop_append_spawned rs2 _ _

/-- The victory sweep marks every not-yet-done task cancelled. -/
theorem cancel_pending_spec (ts : List OTask) (t : OTask)
    (ht : t ∈ cancel_pending ts) (hd : t.done = false) : t.cancelled = true := by
  unfold cancel_pending at ht
  obtain ⟨t0, _, rfl⟩ := List.mem_map.mp ht
  by_cases h0 : t0.done
  · rw [if_pos h0] at hd ⊢
    exact absurd hd (by simp [h0])
  · rw [if_neg h0]

/-- CLAIM C3: on the winning path — a peer task completed with non-empty
bytes — every other not-yet-done task in the task set and every
not-yet-done task in the shared task_registry is cancelled before the
call returns its result. -/
theorem c3_winning_path_cancels_all (task_registry tasks : List OTask)
    (result : Bytes) (t : OTask)
    (ht : t ∈ (winning_path task_registry tasks result).1)
    (hd : t.done = false) : t.cancelled = true :=
  cancel_pending_spec (task_registry ++ tasks) t ht hd

/-- Witness for C3: a single pending registry task is cancelled by the
sweep. -/
theorem c3_witness :
    ({ done := false, cancelled := true } : OTask).cancelled = true :=
  c3_winning_path_cancels_all [{ done := false, cancelled := false }] [] []
    { done := false, cancelled := true } (by decide) rfl

/-- CLAIM C5 refutation: the dictionary KRPCProtocol.handle_request
bencodes for a successful handler reply has exactly the keys y and r —
the inbound transaction id t is never included, for any query and any
handler result, so the reply is not the claimed bencoding of a dictionary
containing y, t and r. -/
theorem c5_reply_omits_transaction_id (transaction_id : Bytes)
    (response : List (Bytes × BVal)) :
    (handle_request_reply transaction_id response).map Prod.fst = [keyY, keyR] ∧
    keyT ∉ (handle_request_reply transaction_id response).map Prod.fst ∧
    handle_request_send transaction_id (rpc_ping id20A) =
      some [(keyY, BVal.bstr keyR), (keyR, BVal.bdict [(keyId, BVal.bstr id20A)])] := by
  refine ⟨rfl, ?_, rfl⟩
  show keyT ∉ [keyY, keyR]
  decide

/-- CLAIM C6 counterexample: with alpha 1 and three uncontacted seeds,
the first round dispatches one RPC, but when the peer answers with no new
nodes the second round is stalled (the heap id list equals the previous
round's), count becomes the heap size, and both remaining uncontacted
nodes are dispatched at once — two RPCs in flight with alpha 1. -/
theorem c6_counterexample_alpha_exceeded :
    spiderSeeds.alpha = 1 ∧
    (find_dispatch spiderSeeds).1.length = 1 ∧
    (find_dispatch (find_dispatch spiderSeeds).2).1.length = 2 ∧
    ¬((find_dispatch (find_dispatch spiderSeeds).2).1.length ≤ spiderSeeds.alpha) := by
  refine ⟨rfl, by decide, by decide, by decide⟩

/-- CLAIM C6 (amended): during an iterative lookup the number of RPCs
dispatched in one round — the in-flight RPCs, since each round awaits all
of them together — is at most alpha whenever the heap's id list changed
since the previous round, and in a stalled round it is bounded by the
full heap size, so it never exceeds max alpha (heap size). -/
theorem c6_inflight_bound_amended (s : SpiderState) :
    (find_dispatch s).1.length ≤ max s.alpha s.nearest.length ∧
    (get_ids s.nearest ≠ s.last_ids_crawled →
      (find_dispatch s).1.length ≤ s.alpha) := by
  have hf : (get_uncontacted s.nearest).length ≤ s.nearest.length :=
    List.length_filter_le _ _
  constructor
  · by_cases hid : get_ids s.nearest = s.last_ids_crawled
    · simp only [find_dispatch, if_pos hid, List.length_take]
      omega
    · simp only [find_dispatch, if_neg hid, List.length_take]
      omega
  · intro hne
    simp [find_dispatch, hne, List.length_take]

/-- Witness for the amended C6 theorem at a fresh spider state. -/
theorem c6_witness :
    (find_dispatch freshSpider).1.length ≤ freshSpider.alpha :=
  (c6_inflight_bound_amended freshSpider).2 (by decide)

/-- Any complete run of the found_peers loop emits exactly one terminal
empty batch, and it is the last batch emitted. -/
theorem found_peers_loop_terminal :
    ∀ (fin : Bool) (evs : List FPEvent) (out : List DhtBatch),
      found_peers_loop fin evs = some out →
      out.countP (fun b => is_terminal b) = 1 ∧ out.getLast? = some terminal_batch
  | true, evs, out, h => by
    simp only [found_peers_loop] at h
    cases h
    refine ⟨by decide, rfl⟩
  | false, [], out, h => by
    simp only [found_peers_loop] at h
    exact absurd h (by simp)
  | false, FPEvent.cancelEvent :: rest, out, h => by
    simp only [found_peers_loop] at h
    cases h
    refine ⟨by decide, rfl⟩
  | false, FPEvent.spiderItem ps fin :: rest, out, h => by
    simp only [found_peers_loop] at h
    cases hr : found_peers_loop fin rest with
    | none => rw [hr] at h; exact absurd h (by simp)
    | some out2 =>
      rw [hr] at h
      simp at h
      subst h
      have ih := found_peers_loop_terminal fin rest out2 hr
      constructor
      · rw [List.countP_cons]
        have : is_terminal { peers := ps, hasNext := true } = false := by
          simp [is_terminal]
        simp [this, ih.1]
      · cases out2 with
        | nil => exact absurd ih.2 (by simp)
        | cons b bs =>
          rw [List.getLast?_cons_cons]
          exact ih.2

/-- CLAIM C7: every invocation of the DHT server's find_peers stream —
a complete run of the inner loop, terminating naturally or through
cancellation, or the early no-neighbors return — emits exactly one
terminal empty batch (empty peer list, no continuation), and no batch
follows it. -/
theorem c7_exactly_one_terminal_batch :
    (∀ (evs : List FPEvent) (out : List DhtBatch),
      find_peers_run evs = some out →
      out.countP (fun b => is_terminal b) = 1 ∧ out.getLast? = some terminal_batch) ∧
    (find_peers_no_neighbors.countP (fun b => is_terminal b) = 1 ∧
     find_peers_no_neighbors.getLast? = some terminal_batch) :=
  ⟨fun evs out h => found_peers_loop_terminal false evs out h, by decide, rfl⟩

/-- Witness for C7 on a concrete run: one spider batch, then natural
termination. -/
theorem c7_witness :
    ([{ peers := [(7, 8)], hasNext := true }, terminal_batch] :
      List DhtBatch).countP (fun b => is_terminal b) = 1 ∧
    ([{ peers := [(7, 8)], hasNext := true }, terminal_batch] :
      List DhtBatch).getLast? = some terminal_batch :=
  c7_exactly_one_terminal_batch.1 [FPEvent.spiderItem [(7, 8)] true]
    [{ peers := [(7, 8)], hasNext := true }, terminal_batch] (by decide)

/-- Every value held by a reachable token storage is a bare
(sender_ip, node_id, info_hash) triple. -/
theorem tokenWF_triple (st : TokenSt) (hwf : TokenWF st) :
    ∀ kv ∈ st, isTokenTriple kv.2 = true := by
  induction hwf with
  | nil =>
    intro kv hkv
    exact absurd hkv (by simp)
  | ins st2 token ip id ih _ ih2 =>
    intro kv hkv
    unfold token_get_token dictInsertTok at hkv
    by_cases hc : (st2.map Prod.fst).contains token
    · rw [if_pos hc] at hkv
      obtain ⟨kv2, hkv2, hmap⟩ := List.mem_map.mp hkv
      by_cases hk : kv2.1 = token
      · rw [if_pos hk] at hmap
        rw [← hmap]
        rfl
      · rw [if_neg hk] at hmap
        rw [← hmap]
        exact ih2 kv2 hkv2
    · rw [if_neg hc] at hkv
      rcases List.mem_append.mp hkv with hkv2 | hkv2
      · exact ih2 kv hkv2
      · simp at hkv2
        rw [hkv2]
        rfl

/-- Destructor for the triple shape. -/
theorem isTokenTriple_shape (v : PV) (hv : isTokenTriple v = true) :
    ∃ ip a b, v = PV.ptup [PV.pstr ip, PV.pbytes a, PV.pbytes b] := by
  match v, hv with
  | PV.ptup [PV.pstr ip, PV.pbytes a, PV.pbytes b], _ => exact ⟨ip, a, b, rfl⟩

/-- CLAIM C8 refutation: token verification can never succeed.  On an
empty token storage the inherited get returns the None default and the
comparison against the triple is False; on any reachable non-empty
storage the first cull raises a TypeError, because iter_older_than
compares the numeric cutoff against the birthday slot of a stored entry,
which get_token filled with the sender IP string.  Concretely, after
get_peers has issued a token, the very announce_peer that presents it
dies with the TypeError, so the peer is never inserted (the insert_peer
call would itself raise, passing one positional argument to a
two-parameter method) and get_peers never returns it. -/
theorem c8_announce_never_stores :
    (∀ (st : TokenSt), TokenWF st → ∀ (now ttl : Int) (ip : String)
        (id ih tok : Bytes) (res : Bool) (st2 : TokenSt),
        verify_token st now ttl ip id ih tok = Except.ok (res, st2) → res = false) ∧
    verify_token (token_get_token [] tok16 "1.2.3.4" id20A ih20B) 0 600
        "1.2.3.4" id20A ih20B tok16 = Except.error "TypeError" ∧
    rpc_announce_peer (token_get_token [] tok16 "1.2.3.4" id20A ih20B) [] 0 600
        ("1.2.3.4", 6881) id20A ih20B 7777 tok16 none = Except.error "TypeError" ∧
    insert_peer_call [] 0 [InsertPeerArg.peerArg ("1.2.3.4", 6881)] =
      Except.error "TypeError" := by
  refine ⟨?_, rfl, rfl, rfl⟩
  intro st hwf now ttl ip id ih tok res st2 h
  cases st with
  | nil =>
    have he : verify_token [] now ttl ip id ih tok = Except.ok (false, []) := rfl
    rw [he] at h
    cases h
    rfl
  | cons kv rest =>
    obtain ⟨k, v⟩ := kv
    have htr := tokenWF_triple _ hwf (k, v) (List.mem_cons_self _ _)
    obtain ⟨ip2, a, b, rfl⟩ := isTokenTriple_shape v htr
    have he : verify_token ((k, PV.ptup [PV.pstr ip2, PV.pbytes a, PV.pbytes b]) :: rest)
        now ttl ip id ih tok = Except.error "TypeError" := rfl
    rw [he] at h
    exact absurd h (by simp)

/-- Witness for C8 applying the impossibility theorem on the empty
storage. -/
theorem c8_witness :
    verify_token [] 0 600 "1.2.3.4" id20A ih20B tok16 = Except.ok (false, []) ∧
    (false : Bool) = false :=
  ⟨rfl, c8_announce_never_stores.1 [] TokenWF.nil 0 600 "1.2.3.4" id20A ih20B tok16
    false [] rfl⟩

/-- CLAIM C9 refutation: the UDP tracker client processes response
datagrams without ever comparing their transaction id to the one it last
sent.  After send_connect drew transaction id 1, a well-formed connect
response carrying transaction id 2 still advances the state machine to
the announce phase, adopts connection id 42 and triggers send_announce;
and in the announce phase, a response carrying transaction id 9 while 5
was sent still resolves the result future with its peers. -/
theorem c9_transaction_id_not_checked :
    ((udpAfterConnect 1).last_transaction_id = some 1 ∧
     intFromBytesBE ((udpConnectDatagram.drop 4).take 4) = 2 ∧
     (handle_response (udpAfterConnect 1) 7 udpConnectDatagram).1.phase =
       UdpPhase.announcePhase ∧
     (handle_response (udpAfterConnect 1) 7 udpConnectDatagram).1.connection_id =
       some 42 ∧
     (handle_response (udpAfterConnect 1) 7 udpConnectDatagram).2 =
       [{ connection_id := 42, transaction_id := 7 }]) ∧
    (udpAnnounceState.last_transaction_id = some 5 ∧
     intFromBytesBE ((udpAnnounceDatagram.drop 4).take 4) = 9 ∧
     (handle_response udpAnnounceState 7 udpAnnounceDatagram).1.cb =
       some { seeders := 4, leechers := 3, peers := [(167772161, 6881)] }) := by
  refine ⟨⟨rfl, by decide, by decide, by decide, by decide⟩, rfl, by decide, by decide⟩

end M2T
